import Mathlib

/-!
Verification development for the SCION simple HTTP(S) proxy
(`endhost/scion_proxy.py`).

The proxy's pure core is shallowly embedded here: byte streams are
`List Char` (one `Char` per byte; the traffic relevant to the claims is
ASCII), the header multimap of `http.client.HTTPMessage` is an ordered
`List (List Char × List Char)` of name/value pairs, and the fallible
Python operations (exceptions, failed dials) are `Option`.
The URL-handling helpers of `urllib.parse` that the proxy calls are
embedded from the CPython 3.4 standard library sources, the Python 3
generation contemporary with this program.
-/

set_option maxRecDepth 10000

/-- The two-character HTTP line terminator. -/
def crlf : List Char := ['\r', '\n']

/-- `BUFLEN = 8192` (scion_proxy.py, module constant): relay read size. -/
def BUFLEN : Nat := 8192

/-- `VERSION = '0.1.0'` (module constant). -/
def VERSION : List Char := "0.1.0".toList

/-- `ConnectionHandler.server_version = "SCION HTTP Proxy/" + VERSION`. -/
def serverVersion : List Char := "SCION HTTP Proxy/".toList ++ VERSION

/-!
## Request parsing (`ConnectionHandler.parse_request`, lines 140-169)

The Python loop reads the client socket one byte at a time, drops every
`\r`, appends each other byte to `data`, counts consecutive `\n`
bytes (any non-`\r`, non-`\n` byte resets the count) and stops as soon
as the count reaches 2.  `recvHead s lf` runs that loop on the stream
`s` with current counter `lf`, returning the accumulated `data`
together with the unread remainder of the stream, or `none` when the
stream ends first (the peer closed the connection).
-/

def recvHead : List Char → Nat → Option (List Char × List Char)
  | [], _ => none
  | b :: s, lf =>
    if b = '\r' then recvHead s lf
    else if b = '\n' then
      if lf + 1 ≥ 2 then some ([b], s)
      else
        match recvHead s (lf + 1) with
        | none => none
        | some (d, r) => some (b :: d, r)
    else
      match recvHead s 0 with
      | none => none
      | some (d, r) => some (b :: d, r)

/-- Python `str.split(sep)` with a one-character separator: splits at
every occurrence, keeping empty pieces (`"a\n\n".split("\n") =
['a','','']`, `"".split("\n") = ['']`). -/
def pySplit (sep : Char) : List Char → List (List Char)
  | [] => [[]]
  | c :: s =>
    if c = sep then [] :: pySplit sep s
    else
      match pySplit sep s with
      | [] => [[c]]
      | p :: ps => (c :: p) :: ps

/-- `line.split(": ", 1)` when the separator occurs: splits at the
first occurrence of the two-character sequence `": "`; `none` when the
separator does not occur (in which case `add_header(*...)` receives a
single argument and Python raises `TypeError`). -/
def splitOnceCS : List Char → Option (List Char × List Char)
  | [] => none
  | c :: rest =>
    if c = ':' ∧ rest.head? = some ' ' then some ([], rest.tail)
    else
      match splitOnceCS rest with
      | none => none
      | some (a, b) => some (c :: a, b)

/-- Does the two-character sequence `": "` occur in the list? -/
def hasCS : List Char → Bool
  | [] => false
  | c :: rest => (c == ':' && rest.head? == some ' ') || hasCS rest

/-- The header-filling loop of `parse_request`: each non-empty line is
split once on `": "` and appended to the `HTTPMessage`; the first
empty line stops the loop.  `none` models the `TypeError` raised by
`add_header` on a line without `": "`. -/
def parseHeaderLines : List (List Char) → Option (List (List Char × List Char))
  | [] => some []
  | l :: ls =>
    if l = [] then some []
    else
      match splitOnceCS l with
      | none => none
      | some (n, v) =>
        match parseHeaderLines ls with
        | none => none
        | some hs => some ((n, v) :: hs)

/-- The structured request produced by `parse_request`:
`self.method`, `self.path`, `self.protocol` and the ordered
name/value pairs stored in `self.headers`. -/
structure Request where
  method : List Char
  path : List Char
  protocol : List Char
  headers : List (List Char × List Char)
deriving DecidableEq, Repr

/-- `ConnectionHandler.parse_request` (lines 140-169) over a stream:
returns the parsed request and the unread remainder of the stream, or
`none` when the peer closed early or any of the Python exceptions
(`UnicodeDecodeError` from `.decode("ascii")`, the unpacking
`ValueError` when the request line does not have exactly three
space-separated fields, the `TypeError` on a header line without
`": "`) fires. -/
def parseRequest (s : List Char) : Option (Request × List Char) :=
  match recvHead s 0 with
  | none => none
  | some (data, rest) =>
    if data.all (fun c => c.toNat < 128) then
      match pySplit '\n' data with
      | [] => none
      | first :: lines =>
        match pySplit ' ' first with
        | [m, t, p] =>
          match parseHeaderLines lines with
          | none => none
          | some hs => some (⟨m, t, p, hs⟩, rest)
        | _ => none
    else none

/-!
## `HTTPMessage` operations used by the proxy

`email.message.Message` stores headers as an ordered list of
name/value pairs; lookups compare names case-insensitively.
-/

def lowerL (l : List Char) : List Char := l.map Char.toLower

/-- `Message.__getitem__` / `Message.get`: value of the first header
whose name matches case-insensitively, else `None`. -/
def getFirstHeader : List (List Char × List Char) → List Char → Option (List Char)
  | [], _ => none
  | (k, v) :: t, nm => if lowerL k = lowerL nm then some v else getFirstHeader t nm

/-- `Message.__delitem__`: removes every header whose name matches
case-insensitively (a no-op when none matches). -/
def delHeader (hs : List (List Char × List Char)) (nm : List Char) :
    List (List Char × List Char) :=
  hs.filter (fun h => decide (lowerL h.1 ≠ lowerL nm))

/-- `Message.replace_header`: replaces the value of the first header
whose name matches case-insensitively, keeping that header's position
and original name spelling; `none` models the `KeyError` raised when
no header matches. -/
def replaceHeaderM : List (List Char × List Char) → List Char → List Char →
    Option (List (List Char × List Char))
  | [], _, _ => none
  | (k, v) :: t, nm, val =>
    if lowerL k = lowerL nm then some ((k, val) :: t)
    else
      match replaceHeaderM t nm val with
      | none => none
      | some t2 => some ((k, v) :: t2)

/-- The `Connection`-header normalization of `handle_others`
(lines 211-214):
`conn_hdr = self.headers["Connection"]`, and if that value is truthy,
`del self.headers[conn_hdr]` (note: this deletes the headers **named
by the value** of the Connection header) followed by
`self.headers.replace_header("Connection", "close")`.  `none` models
the `KeyError` from `replace_header` when the deletion removed the
Connection header itself. -/
def connNormalize (hs : List (List Char × List Char)) :
    Option (List (List Char × List Char)) :=
  match getFirstHeader hs "Connection".toList with
  | none => some hs
  | some v =>
    if v = [] then some hs
    else replaceHeaderM (delHeader hs v) "Connection".toList "close".toList

/-!
## `urllib.parse` model (CPython 3.4)

`handle_others` calls `urlparse(self.path, 'http')`, `relay_all` calls
`urlparse(self.path)`, and `_send_request` calls
`urlunparse((scm, netloc, path, params, query, ''))`.  The functions
below embed the CPython 3.4 implementations of `urlsplit`,
`_splitparams`, `urlparse`, `urlunsplit` and `urlunparse`
(including the `url[:i] == 'http'` fast path and the trailing-digits
"port number" heuristic of that era).  `none` models the `ValueError`
that `urlsplit` raises on mismatched IPv6 brackets in the netloc.
-/

/-- `urllib.parse.scheme_chars`. -/
def isSchemeChar (c : Char) : Bool :=
  c.isAlpha || c.isDigit || c == '+' || c == '-' || c == '.'

/-- Python `url.split(sep, 1)` when `sep in url`: the piece before the
first occurrence and the piece after it; `none` when absent. -/
def pySplitOnce (sep : Char) (l : List Char) : Option (List Char × List Char) :=
  match l.dropWhile (fun c => c != sep) with
  | [] => none
  | _ :: t => some (l.takeWhile (fun c => c != sep), t)

/-- `urllib.parse._splitnetloc(url, 2)` applied to `url[2:]`: cuts at
the first occurrence of `/`, `?` or `#`. -/
def splitNetloc (l : List Char) : List Char × List Char :=
  (l.takeWhile (fun c => !(c == '/' || c == '?' || c == '#')),
   l.dropWhile (fun c => !(c == '/' || c == '?' || c == '#')))

/-- The `SplitResult` tuple of `urlsplit`. -/
structure SplitResult where
  scheme : List Char
  netloc : List Char
  path : List Char
  query : List Char
  fragment : List Char
deriving DecidableEq, Repr

/-- The `ParseResult` tuple of `urlparse`. -/
structure ParseResult where
  scheme : List Char
  netloc : List Char
  path : List Char
  params : List Char
  query : List Char
  fragment : List Char
deriving DecidableEq, Repr

/-- `urllib.parse.urlsplit(url0, scheme0)` (CPython 3.4). -/
def urlsplitM (url0 scheme0 : List Char) : Option SplitResult :=
  let pre := url0.takeWhile (fun c => c != ':')
  let su : List Char × List Char :=
    match url0.dropWhile (fun c => c != ':') with
    | ':' :: rest =>
      if pre = [] then (scheme0, url0)
      else if pre = "http".toList then ("http".toList, rest)
      else if pre.all isSchemeChar then
        if rest = [] ∨ ¬ rest.all Char.isDigit then (lowerL pre, rest)
        else (scheme0, url0)
      else (scheme0, url0)
    | _ => (scheme0, url0)
  let nu : List Char × List Char :=
    match su.2 with
    | '/' :: '/' :: rest => splitNetloc rest
    | u => ([], u)
  if (nu.1.contains '[' && !nu.1.contains ']') ||
     (nu.1.contains ']' && !nu.1.contains '[') then none
  else
    let uf : List Char × List Char :=
      match pySplitOnce '#' nu.2 with
      | some (u, f) => (u, f)
      | none => (nu.2, [])
    let uq : List Char × List Char :=
      match pySplitOnce '?' uf.1 with
      | some (u, q) => (u, q)
      | none => (uf.1, [])
    some ⟨su.1, nu.1, uq.1, uq.2, uf.2⟩

/-- `urllib.parse.uses_params`. -/
def usesParams : List (List Char) :=
  ["ftp", "hdl", "prospero", "http", "imap", "https", "shttp", "rtsp",
   "rtspu", "sip", "sips", "mms", "", "sftp", "tel"].map String.toList

/-- First index `≥ start` of a character satisfying `p`
(Python `url.find(c, start)` restricted to found/not-found). -/
def findIdxFrom (p : Char → Bool) (l : List Char) (start : Nat) : Option Nat :=
  ((l.drop start).findIdx? p).map (· + start)

/-- Last index of a character satisfying `p` (Python `url.rfind(c)`). -/
def rfindIdx (p : Char → Bool) (l : List Char) : Option Nat :=
  (l.reverse.findIdx? p).map (fun i => l.length - 1 - i)

/-- `urllib.parse._splitparams`. -/
def splitParamsM (url : List Char) : List Char × List Char :=
  let i? :=
    if url.contains '/' then
      match rfindIdx (fun c => c == '/') url with
      | some j => findIdxFrom (fun c => c == ';') url j
      | none => none
    else findIdxFrom (fun c => c == ';') url 0
  match i? with
  | none => (url, [])
  | some i => (url.take i, url.drop (i + 1))

/-- `urllib.parse.urlparse(url, scheme0)` (CPython 3.4). -/
def urlparseM (url scheme0 : List Char) : Option ParseResult :=
  match urlsplitM url scheme0 with
  | none => none
  | some r =>
    if r.scheme ∈ usesParams ∧ r.path.contains ';' then
      let up := splitParamsM r.path
      some ⟨r.scheme, r.netloc, up.1, up.2, r.query, r.fragment⟩
    else some ⟨r.scheme, r.netloc, r.path, [], r.query, r.fragment⟩

/-- `urllib.parse.urlunsplit`. -/
def urlunsplitM (scheme netloc url query fragment : List Char) : List Char :=
  let u1 :=
    if netloc ≠ [] ∨ (url ≠ [] ∧ url.take 2 = "//".toList) then
      '/' :: '/' :: netloc ++ (if url ≠ [] ∧ url.head? ≠ some '/' then '/' :: url else url)
    else url
  let u2 := if scheme ≠ [] then scheme ++ ':' :: u1 else u1
  let u3 := if query ≠ [] then u2 ++ '?' :: query else u2
  if fragment ≠ [] then u3 ++ '#' :: fragment else u3

/-- `urllib.parse.urlunparse`. -/
def urlunparseM (scheme netloc url params query fragment : List Char) : List Char :=
  urlunsplitM scheme netloc (if params ≠ [] then url ++ ';' :: params else url)
    query fragment

/-!
## Forwarding the request (`_send_request`, `handle_others`, `relay_all`)
-/

/-- One serialized header line body, `"%s: %s" % (hdr, val)`. -/
def renderHV (h : List Char × List Char) : List Char := h.1 ++ ':' :: ' ' :: h.2

/-- `ConnectionHandler._send_request` (lines 248-271): the exact bytes
pushed to the destination socket, namely
`"\r\n".join([base] + header lines) + "\r\n\r\n"` with
`base = "%s %s HTTP/1.0" % (method, urlunparse((scm, netloc, path, params, query, '')))`. -/
def sendRequestBytes (method scm netloc path params query : List Char)
    (hs : List (List Char × List Char)) : List Char :=
  List.intercalate crlf
    ((method ++ ' ' :: urlunparseM scm netloc path params query [] ++ ' ' :: "HTTP/1.0".toList)
      :: hs.map renderHV) ++ crlf ++ crlf

/-- `ConnectionHandler.handle_others` (lines 200-224) up to and
including the `_send_request` call: given the parsed request's method,
target and headers, the bytes sent to the destination once the dial
succeeds, or `none` when the request is rejected (`scm != 'http' or
not netloc`) or an exception fires before sending. -/
def handleOthersSend (method path : List Char) (hs : List (List Char × List Char)) :
    Option (List Char) :=
  match urlparseM path "http".toList with
  | none => none
  | some r =>
    if r.scheme ≠ "http".toList ∨ r.netloc = [] then none
    else
      match connNormalize hs with
      | none => none
      | some hs2 =>
        some (sendRequestBytes method r.scheme r.netloc r.path r.params r.query hs2)

/-- The method set accepted by
`ForwardingProxyConnectionHandler.handle_request` (line 353). -/
def bridgeMethods : List (List Char) :=
  ["CONNECT", "GET", "HEAD", "POST", "PUT", "DELETE"].map String.toList

/-- Bridge mode, `handle_request` + `relay_all` (lines 351-372) up to
and including `_send_request`: the bytes sent to the fixed bridge
destination, or `none` when the method is dropped or an exception
fires.  `relay_all` calls `urlparse(self.path)` with the default empty
scheme and never inspects the result. -/
def relayAllSend (method path : List Char) (hs : List (List Char × List Char)) :
    Option (List Char) :=
  if method ∈ bridgeMethods then
    match urlparseM path [] with
    | none => none
    | some r =>
      some (sendRequestBytes method r.scheme r.netloc r.path r.params r.query hs)
  else none

/-!
## CONNECT handling (`do_CONNECT`, `_connect_to`)
-/

/-- Digit-string parse, the behaviour of Python `int(...)` on the
all-digit strings relevant here (`none` for a string that is empty or
contains a non-digit, where `int` raises `ValueError`). -/
def parsePort (l : List Char) : Option Nat :=
  if l ≠ [] ∧ l.all Char.isDigit then
    some (l.foldl (fun n c => n * 10 + (c.toNat - 48)) 0)
  else none

/-- `ConnectionHandler._connect_to` (lines 226-246), destination
resolution only: the `(host, port)` pair the proxy dials, or `none`
when the Python code raises before dialing (`netloc.split(':')`
unpacking with a colon count other than one, or `int(port)` on a
non-numeric port).  When `':' not in netloc` the explicit `else`
branch supplies `host, port = netloc, 80`. -/
def connectToDest (netloc : List Char) : Option (List Char × Nat) :=
  if netloc.contains ':' then
    match pySplit ':' netloc with
    | [h, p] =>
      match parsePort p with
      | none => none
      | some pn => some (h, pn)
    | _ => none
  else some (netloc, 80)

/-- `do_CONNECT` (lines 190-195): the success reply written back to
the client, `"\r\n".join(["HTTP/1.1 200 Connection established",
"Proxy-agent: %s" % self.server_version]) + "\r\n\r\n"`.  The Python
code never reads `self.protocol` here; the status line is the fixed
string `HTTP/1.1 ...`. -/
def connectReply : List Char :=
  List.intercalate crlf
    ["HTTP/1.1 200 Connection established".toList,
     "Proxy-agent: ".toList ++ serverVersion] ++ crlf ++ crlf

/-- The reply shape asserted by the claim: the protocol version is
taken from the client's request line. -/
def claimC5reply (ver : List Char) : List Char :=
  ver ++ " 200 Connection established".toList ++ crlf ++
    "Proxy-agent: ".toList ++ serverVersion ++ crlf ++ crlf

/-!
## Relay (`ProxyData`, lines 296-327), one direction

`_run` loops: `data = self._read()` (`rsock.recv(BUFLEN)`, `None` on
`OSError`); `if not data: break`; `if not self._write(data): break`
(`wsock.sendall`, `False` on `OSError`).  One loop direction is driven
by a script of events: each iteration consumes one event giving the
`recv` outcome and whether the `sendall` of that iteration (if
reached) succeeds.
-/

/-- Outcome of one `rsock.recv(BUFLEN)` call: data (possibly empty =
end of stream) or an `OSError`. -/
inductive RecvRes where
  | ok (data : List Nat)
  | fail
deriving DecidableEq, Repr

/-- One loop iteration's environment: the `recv` outcome and whether
the `sendall` for that chunk succeeds. -/
abbrev PDEvent := RecvRes × Bool

/-- `ProxyData._read`: the received bytes, or `None` after `OSError`. -/
def pdRead : RecvRes → Option (List Nat)
  | .ok d => some d
  | .fail => none

/-- `ProxyData._run` for one direction: returns the chunks
successfully handed to `wsock.sendall`, in order, together with the
unconsumed part of the event script after the loop breaks. -/
def pdRun : List PDEvent → List (List Nat) × List PDEvent
  | [] => ([], [])
  | (r, w) :: evs =>
    match pdRead r with
    | none => ([], evs)
    | some [] => ([], evs)
    | some d =>
      if w then
        let rec2 := pdRun evs
        (d :: rec2.1, rec2.2)
      else ([], evs)

/-- Specification-side view of an event: does it break the copy loop
(end-of-stream, read error, or write error)? -/
def pdStops : PDEvent → Bool
  | (.ok d, w) => d.isEmpty || !w
  | (.fail, _) => true

/-- Specification-side view of an event: the bytes it delivers. -/
def pdChunk : PDEvent → List Nat
  | (.ok d, _) => d
  | (.fail, _) => []

/-!
## Close discipline (`ConnectionHandler.__init__`, `cleanup`), claim C9

The handler's control flow is embedded as an explicit state machine
over the two sockets it owns.  Each Python `try ... finally` is the
`pyFinally` combinator; each scenario value fixes the outcome of every
fallible step (parse result, URL check, header normalization, dial,
send/relay), covering every exit path of the handler.
-/

/-- Which sockets have been opened/closed. -/
structure SockSt where
  nearClosed : Bool
  farOpened : Bool
  farClosed : Bool
deriving DecidableEq, Repr

/-- `try body finally fin`: `fin` runs whether or not `body` raised,
and the exception flag of `body` survives. -/
def pyFinally (body : SockSt → SockSt × Bool) (fin : SockSt → SockSt)
    (st : SockSt) : SockSt × Bool :=
  let r := body st
  (fin r.1, r.2)

/-- `cleanup(sock)` (lines 403-407) applied to the client socket:
`sock.close()` with `OSError` swallowed. -/
def cleanupNear (st : SockSt) : SockSt := { st with nearClosed := true }

/-- `cleanup(soc)` applied to the destination socket. -/
def cleanupFar (st : SockSt) : SockSt := { st with farClosed := true }

/-- Outcome class of `parse_request` as seen by `__init__`. -/
inductive ParseOutcome where
  | peerClosed
  | parseExn
  | parsed (m : Fin 3)
deriving DecidableEq

instance : Fintype ParseOutcome where
  elems := {ParseOutcome.peerClosed, ParseOutcome.parseExn,
            ParseOutcome.parsed 0, ParseOutcome.parsed 1, ParseOutcome.parsed 2}
  complete := by intro x; cases x with
    | peerClosed => simp
    | parseExn => simp
    | parsed m => fin_cases m <;> simp

/-- One complete environment for a direct-mode handler run.
`parsed 0` = CONNECT, `parsed 1` = GET/HEAD/POST/PUT/DELETE,
`parsed 2` = any other method. -/
structure DirectScenario where
  parseOut : ParseOutcome
  urlOk : Bool
  normExn : Bool
  dialExn : Bool
  dialOk : Bool
  sendExn : Bool
deriving DecidableEq, Fintype

/-- `_connect_to`: `none` when it raises, otherwise whether a socket
was connected and returned (`False` on dial failure). -/
def connectToRun (sc : DirectScenario) : Option Bool :=
  if sc.dialExn then none else some sc.dialOk

/-- `do_CONNECT` (lines 180-198): returns updated socket state and
exception flag. -/
def doConnectRun (sc : DirectScenario) (st : SockSt) : SockSt × Bool :=
  match connectToRun sc with
  | none => (st, true)
  | some false => (st, false)
  | some true =>
    pyFinally (fun st2 => (st2, sc.sendExn)) cleanupFar { st with farOpened := true }

/-- `handle_others` (lines 200-224): URL check, Connection
normalization, dial, then `try: send/relay finally: cleanup(soc)`. -/
def handleOthersRun (sc : DirectScenario) (st : SockSt) : SockSt × Bool :=
  if !sc.urlOk then (st, false)
  else if sc.normExn then (st, true)
  else
    match connectToRun sc with
    | none => (st, true)
    | some false => (st, false)
    | some true =>
      pyFinally (fun st2 => (st2, sc.sendExn)) cleanupFar { st with farOpened := true }

/-- `handle_request` (lines 171-178): dispatch on the method class. -/
def handleRequestRun (sc : DirectScenario) (st : SockSt) : SockSt × Bool :=
  match sc.parseOut with
  | .parsed ⟨0, _⟩ => doConnectRun sc st
  | .parsed ⟨1, _⟩ => handleOthersRun sc st
  | _ => (st, false)

/-- `ConnectionHandler.__init__` (lines 132-138):
`try: parse_request / handle_request finally: cleanup(self.connection)`. -/
def handlerRun (sc : DirectScenario) : SockSt :=
  (pyFinally
    (fun st =>
      match sc.parseOut with
      | .peerClosed => (st, false)
      | .parseExn => (st, true)
      | .parsed _ => handleRequestRun sc st)
    cleanupNear
    { nearClosed := false, farOpened := false, farClosed := false }).1

/-!
## Specification-side definitions

These do not come from the source; they state the shapes that the
claims assert, so that the theorems below can compare the embedded
code against them.
-/

/-- Does the `parse_request` byte loop, started with counter `k`,
consume exactly this list and stop on its last byte?  True when the
count of consecutive `\n` bytes (with `\r` skipped) reaches 2 for the
first time exactly at the final byte: the list is a complete header
block with nothing after it. -/
def headEnds : List Char → Nat → Bool
  | [], _ => false
  | b :: s, lf =>
    if b = '\r' then headEnds s lf
    else if b = '\n' then
      if lf + 1 ≥ 2 then s.isEmpty
      else headEnds s (lf + 1)
    else headEnds s 0

/-- A request-line field in a well-formed head: no space, no line
terminator, ASCII. -/
def plainFieldB (l : List Char) : Bool :=
  l.all (fun c => c != ' ' && c != '\n' && c != '\r' && decide (c.toNat < 128))

/-- Header-name/value text in a well-formed head: no line terminator,
ASCII. -/
def plainTextB (l : List Char) : Bool :=
  l.all (fun c => c != '\n' && c != '\r' && decide (c.toNat < 128))

/-- A well-formed header pair: plain text on both sides, and the name
does not itself contain the `": "` separator. -/
def headerOkB (h : List Char × List Char) : Bool :=
  plainTextB h.1 && plainTextB h.2 && !hasCS h.1

/-- The request line `"METHOD target HTTP/x.y"`. -/
def reqLine (m t v : List Char) : List Char := m ++ ' ' :: (t ++ ' ' :: v)

/-- A serialized well-formed request head:
`"METHOD target HTTP/x.y\r\n"`, then `"Name: Value\r\n"` per header,
then the blank terminator line `"\r\n"`. -/
def renderHead (m t v : List Char) (hs : List (List Char × List Char)) : List Char :=
  ((reqLine m t v :: hs.map renderHV).map (fun l => l ++ crlf)).flatten ++ crlf

/-- `Message.get_all`: all values stored under a case-insensitive key,
in insertion order. -/
def getAllHeaders (hs : List (List Char × List Char)) (nm : List Char) :
    List (List Char) :=
  (hs.filter (fun h => lowerL h.1 == lowerL nm)).map Prod.snd

/-- Does `handle_others` accept this target (scheme resolves to `http`
and the authority is non-empty)? -/
def directAccepts (path : List Char) : Bool :=
  match urlparseM path "http".toList with
  | none => false
  | some r => r.scheme == "http".toList && r.netloc != []

/-- Does the target survive the `urlparse(path, 'http')` /
`urlunparse(... fragment='')` round trip byte-identically?  This holds
for ordinary fragment-free absolute `http` URIs. -/
def directRoundTrip (path : List Char) : Bool :=
  match urlparseM path "http".toList with
  | none => false
  | some r => urlunparseM r.scheme r.netloc r.path r.params r.query [] == path

/-- Bridge-mode variant of the round trip: `relay_all` parses with an
empty default scheme. -/
def bridgeRoundTrip (path : List Char) : Bool :=
  match urlparseM path [] with
  | none => false
  | some r => urlunparseM r.scheme r.netloc r.path r.params r.query [] == path

/-- The header rewriting asserted by claim C3: every header is kept in
place and unchanged, except that a `Connection` header keeps its name
and gets the value `close`. -/
def claimC3headers (hs : List (List Char × List Char)) :
    List (List Char × List Char) :=
  hs.map (fun h =>
    if lowerL h.1 = lowerL "Connection".toList then (h.1, "close".toList) else h)


/-!
## Helper lemmas
-/

theorem pySplit_no_sep (sep : Char) (l : List Char) (h : sep ∉ l) :
    pySplit sep l = [l] := by
  induction l with
  | nil => rfl
  | cons c s ih =>
    rw [List.mem_cons, not_or] at h
    have hc : ¬ c = sep := fun hcc => h.1 hcc.symm
    simp [pySplit, hc, ih h.2]

theorem pySplit_append (sep : Char) (a rest : List Char) (h : sep ∉ a) :
    pySplit sep (a ++ sep :: rest) = a :: pySplit sep rest := by
  induction a with
  | nil => simp [pySplit]
  | cons c s ih =>
    rw [List.mem_cons, not_or] at h
    have hc : ¬ c = sep := fun hcc => h.1 hcc.symm
    simp only [List.cons_append, pySplit, hc, if_false, List.append_eq]
    rw [ih h.2]

theorem contains_false_of_not_mem (l : List Char) (c : Char) (h : c ∉ l) :
    l.contains c = false := by
  simpa using h

theorem contains_true_of_mem (l : List Char) (c : Char) (h : c ∈ l) :
    l.contains c = true := by
  simpa using h

/-- C4 helper: a list with two marked separators contains the separator. -/
theorem mem_append_cons (a b : List Char) (c : Char) : c ∈ a ++ c :: b := by
  simp

/-- C4 counterexample: a CONNECT target without `:` is **not**
rejected; `_connect_to("example.com")` resolves to the default port 80
and a dial is attempted. -/
theorem c4_counterexample :
    connectToDest "example.com".toList = some ("example.com".toList, 80) ∧
    connectToDest "example.com".toList ≠ none := by
  refine ⟨by decide, by decide⟩

/-- C4 (amended): in `_connect_to`, a netloc without `:` is given the
default port 80 and dialed; a netloc with two or more `:` raises an
unpacking `ValueError` (no dial); the claim's "treat absence of `:`
as a parse error, no default port" does not hold. -/
theorem c4_connect_dest_resolution (netloc a b c : List Char)
    (hn : ':' ∉ netloc) (ha : ':' ∉ a) (hb : ':' ∉ b) (hc : ':' ∉ c) :
    connectToDest netloc = some (netloc, 80) ∧
    connectToDest (a ++ ':' :: b ++ ':' :: c) = none := by
  constructor
  · simp only [connectToDest]
    rw [contains_false_of_not_mem _ _ hn]
    simp
  · have hmem : (':' : Char) ∈ a ++ ':' :: b ++ ':' :: c := by simp
    have hsp : pySplit ':' (a ++ ':' :: (b ++ ':' :: c)) =
        a :: b :: [c] := by
      rw [pySplit_append _ _ _ ha, pySplit_append _ _ _ hb,
        pySplit_no_sep _ _ hc]
    simp only [List.append_assoc, List.cons_append] at hmem ⊢
    simp [connectToDest, contains_true_of_mem _ _ hmem, hsp]

/-- C4 witness. -/
theorem c4_witness :
    connectToDest "scion.org".toList = some ("scion.org".toList, 80) ∧
    connectToDest ("ab".toList ++ ':' :: "cd".toList ++ ':' :: "99".toList) = none :=
  c4_connect_dest_resolution "scion.org".toList "ab".toList "cd".toList "99".toList
    (by decide) (by decide) (by decide) (by decide)

/-- C5 counterexample: for a client request line with protocol version
`HTTP/1.0`, the claim predicts a reply starting with that version, but
`do_CONNECT` writes its fixed `HTTP/1.1` status line. -/
theorem c5_counterexample :
    connectReply ≠ claimC5reply "HTTP/1.0".toList := by
  decide

/-- C5 (amended): on CONNECT success the handler writes back exactly
`"HTTP/1.1 200 Connection established\r\nProxy-agent: <server-version>\r\n\r\n"`
with the protocol version hard-coded to `HTTP/1.1`, regardless of the
version on the client's request line. -/
theorem c5_reply_fixed :
    connectReply =
      "HTTP/1.1 200 Connection established\r\nProxy-agent: SCION HTTP Proxy/0.1.0\r\n\r\n".toList ∧
    connectReply = claimC5reply "HTTP/1.1".toList := by
  refine ⟨by decide, by decide⟩

/-- C9: on every exit path of a direct-mode handler run (peer closed
early, parse exception, unsupported method, URL rejection,
normalization exception, dial exception or failure, send/relay
exception, normal completion) the client-facing socket is closed when
the handler returns, and the destination socket, once opened, is
closed too. -/
theorem c9_sockets_closed :
    ∀ sc : DirectScenario,
      ((handlerRun sc).nearClosed &&
        (!(handlerRun sc).farOpened || (handlerRun sc).farClosed)) = true := by
  decide

/-- C2 counterexample: in bridge mode a client head
`"CONNECT example.com:443 HTTP/1.1\r\n\r\n"` is **not** forwarded
byte-identically: `relay_all` re-serializes it through `_send_request`
with the protocol version rewritten to `HTTP/1.0`. -/
theorem c2_counterexample :
    relayAllSend "CONNECT".toList "example.com:443".toList [] =
      some "CONNECT example.com:443 HTTP/1.0\r\n\r\n".toList ∧
    some "CONNECT example.com:443 HTTP/1.0\r\n\r\n".toList ≠
      some "CONNECT example.com:443 HTTP/1.1\r\n\r\n".toList := by
  refine ⟨by decide, by decide⟩

/-- C2 (amended): in bridge mode, for every accepted method, the
request line and headers are re-serialized through `_send_request`:
the method and the target (for targets that survive the URL
parse/unparse round trip, which includes the ordinary bridge targets)
are forwarded byte-identically, the header block is forwarded as
parsed, but the protocol version on the forwarded request line is
always `HTTP/1.0`, replacing whatever version the client sent. -/
theorem c2_bridge_reserializes (method path : List Char)
    (hs : List (List Char × List Char))
    (hm : method ∈ bridgeMethods) (hrt : bridgeRoundTrip path = true) :
    relayAllSend method path hs =
      some (List.intercalate crlf
        ((method ++ ' ' :: path ++ ' ' :: "HTTP/1.0".toList) :: hs.map renderHV)
        ++ crlf ++ crlf) := by
  unfold relayAllSend
  rw [if_pos hm]
  unfold bridgeRoundTrip at hrt
  cases hu : urlparseM path [] with
  | none => rw [hu] at hrt; exact absurd hrt (by simp)
  | some r =>
    rw [hu] at hrt
    have heq : urlunparseM r.scheme r.netloc r.path r.params r.query [] = path :=
      eq_of_beq hrt
    simp [sendRequestBytes, heq]

/-- C2 witness. -/
theorem c2_witness :
    relayAllSend "CONNECT".toList "scion.net:9090".toList [] =
      some (List.intercalate crlf
        (("CONNECT".toList ++ ' ' :: "scion.net:9090".toList ++ ' ' :: "HTTP/1.0".toList)
          :: ([] : List (List Char × List Char)).map renderHV)
        ++ crlf ++ crlf) :=
  c2_bridge_reserializes "CONNECT".toList "scion.net:9090".toList []
    (by decide) (by decide)

/-- C1 counterexample: for the spec's own example
`GET http://example.com/foo?q=1 HTTP/1.1` the destination receives the
request line in absolute form,
`"GET http://example.com/foo?q=1 HTTP/1.0"`, not the claimed origin
form `"GET /foo?q=1 HTTP/1.0"`. -/
theorem c1_counterexample :
    handleOthersSend "GET".toList "http://example.com/foo?q=1".toList
        [("Host".toList, "example.com".toList),
         ("Connection".toList, "keep-alive".toList)] =
      some "GET http://example.com/foo?q=1 HTTP/1.0\r\nHost: example.com\r\nConnection: close\r\n\r\n".toList ∧
    some "GET http://example.com/foo?q=1 HTTP/1.0\r\nHost: example.com\r\nConnection: close\r\n\r\n".toList ≠
      some "GET /foo?q=1 HTTP/1.0\r\nHost: example.com\r\nConnection: close\r\n\r\n".toList := by
  refine ⟨by decide, by decide⟩

/-- C1 (amended): for every forwarded non-CONNECT request in direct
mode whose target is an absolute `http` URI with non-empty authority
(and which survives the URL parse/unparse round trip, as ordinary
fragment-free absolute URIs do), the request line sent to the
destination is `METHOD <absolute-target> HTTP/1.0` — the full
absolute URI, not the origin form — followed by the
(Connection-normalized) headers and the blank terminator line. -/
theorem c1_direct_absolute_form (method path : List Char)
    (hs : List (List Char × List Char))
    (ha : directAccepts path = true) (hrt : directRoundTrip path = true) :
    handleOthersSend method path hs =
      (connNormalize hs).map (fun hs2 =>
        List.intercalate crlf
          ((method ++ ' ' :: path ++ ' ' :: "HTTP/1.0".toList) :: hs2.map renderHV)
          ++ crlf ++ crlf) := by
  unfold directAccepts at ha
  unfold directRoundTrip at hrt
  cases hu : urlparseM path "http".toList with
  | none => rw [hu] at ha; simp at ha
  | some r =>
    rw [hu] at ha hrt
    simp only [beq_iff_eq, bne_iff_ne, Bool.and_eq_true] at ha hrt
    obtain ⟨hscm, hnet⟩ := ha
    simp only [handleOthersSend, hu]
    rw [if_neg (by simp [hscm, hnet])]
    cases connNormalize hs with
    | none => rfl
    | some hs2 => simp [sendRequestBytes, hrt]

/-- C1 witness. -/
theorem c1_witness :
    handleOthersSend "GET".toList "http://scion.net/a/b?x=2".toList
        [("Host".toList, "scion.net".toList)] =
      (connNormalize [("Host".toList, "scion.net".toList)]).map (fun hs2 =>
        List.intercalate crlf
          (("GET".toList ++ ' ' :: "http://scion.net/a/b?x=2".toList ++ ' ' :: "HTTP/1.0".toList)
            :: hs2.map renderHV)
          ++ crlf ++ crlf) :=
  c1_direct_absolute_form "GET".toList "http://scion.net/a/b?x=2".toList
    [("Host".toList, "scion.net".toList)] (by decide) (by decide)

theorem getFirstHeader_append_cons :
    ∀ (hs1 hs2 : List (List Char × List Char)) (k v nm : List Char),
      (∀ h ∈ hs1, lowerL h.1 ≠ lowerL nm) → lowerL k = lowerL nm →
      getFirstHeader (hs1 ++ (k, v) :: hs2) nm = some v
  | [], hs2, k, v, nm, _, hk => by simp [getFirstHeader, hk]
  | (pk, pv) :: t, hs2, k, v, nm, h1, hk => by
    have hne : ¬ lowerL pk = lowerL nm := by
      have := h1 (pk, pv) (by simp)
      simpa using this
    simp only [List.cons_append, getFirstHeader]
    rw [if_neg hne]
    exact getFirstHeader_append_cons t hs2 k v nm
      (fun h hm => h1 h (List.mem_cons_of_mem _ hm)) hk

theorem replaceHeaderM_append_cons :
    ∀ (hs1 hs2 : List (List Char × List Char)) (k v nm val : List Char),
      (∀ h ∈ hs1, lowerL h.1 ≠ lowerL nm) → lowerL k = lowerL nm →
      replaceHeaderM (hs1 ++ (k, v) :: hs2) nm val =
        some (hs1 ++ (k, val) :: hs2)
  | [], hs2, k, v, nm, val, _, hk => by simp [replaceHeaderM, hk]
  | (pk, pv) :: t, hs2, k, v, nm, val, h1, hk => by
    have hne : ¬ lowerL pk = lowerL nm := by
      have := h1 (pk, pv) (by simp)
      simpa using this
    simp only [List.cons_append, replaceHeaderM, List.append_eq]
    rw [if_neg hne,
      replaceHeaderM_append_cons t hs2 k v nm val
        (fun h hm => h1 h (List.mem_cons_of_mem _ hm)) hk]

/-- C3 counterexample: with headers
`Keep-Alive: timeout=5` and `Connection: Keep-Alive`, the
normalization of `handle_others` deletes the `Keep-Alive` header
(because `del self.headers[conn_hdr]` uses the *value* of the
Connection header as a header name), so not every non-Connection
header is forwarded unchanged. -/
theorem c3_counterexample :
    connNormalize [("Keep-Alive".toList, "timeout=5".toList),
                   ("Connection".toList, "Keep-Alive".toList)] =
      some [("Connection".toList, "close".toList)] ∧
    some [("Connection".toList, "close".toList)] ≠
      some (claimC3headers [("Keep-Alive".toList, "timeout=5".toList),
                            ("Connection".toList, "Keep-Alive".toList)]) := by
  refine ⟨by decide, by decide⟩

/-- C3 (amended): when no `Connection` header is present (or its value
is empty) the headers pass through unchanged.  When a `Connection`
header with non-empty value `v` is present (first such header at an
arbitrary position, `v` itself not naming Connection), the forwarded
headers are the original ones in their original order with the value
of that Connection header replaced by `close` (its name spelling
kept), **except** that every header whose name case-insensitively
equals `v` is deleted — the code removes the hop-by-hop headers named
by the Connection value, which the claim does not allow for. -/
theorem c3_connection_normalization :
    (∀ hs : List (List Char × List Char),
      getFirstHeader hs "Connection".toList = none → connNormalize hs = some hs) ∧
    (∀ (hs1 hs2 : List (List Char × List Char)) (k v : List Char),
      (∀ h ∈ hs1, lowerL h.1 ≠ lowerL "Connection".toList) →
      lowerL k = lowerL "Connection".toList →
      v ≠ [] → lowerL v ≠ lowerL "Connection".toList →
      connNormalize (hs1 ++ (k, v) :: hs2) =
        some (hs1.filter (fun h => decide (lowerL h.1 ≠ lowerL v)) ++
          (k, "close".toList) ::
            hs2.filter (fun h => decide (lowerL h.1 ≠ lowerL v)))) := by
  constructor
  · intro hs h
    unfold connNormalize
    rw [h]
  · intro hs1 hs2 k v h1 hk hv hvc
    have hkv : lowerL k ≠ lowerL v := by
      intro he
      exact hvc (he.symm.trans hk)
    simp only [connNormalize, getFirstHeader_append_cons hs1 hs2 k v _ h1 hk]
    rw [if_neg hv]
    have hdel : delHeader (hs1 ++ (k, v) :: hs2) v =
        hs1.filter (fun h => decide (lowerL h.1 ≠ lowerL v)) ++
          (k, v) :: hs2.filter (fun h => decide (lowerL h.1 ≠ lowerL v)) := by
      unfold delHeader
      rw [List.filter_append, List.filter_cons]
      simp [hkv]
    rw [hdel]
    exact replaceHeaderM_append_cons _
      (hs2.filter (fun h => decide (lowerL h.1 ≠ lowerL v))) k v _ "close".toList
      (fun h hm => h1 h (List.mem_of_mem_filter hm)) hk

/-- C3 witness. -/
theorem c3_witness :
    connNormalize [("Host".toList, "x".toList),
                   ("Connection".toList, "Keep-Alive".toList),
                   ("Keep-Alive".toList, "timeout=5".toList)] =
      some ([("Host".toList, "x".toList)].filter
          (fun h => decide (lowerL h.1 ≠ lowerL "Keep-Alive".toList)) ++
        ("Connection".toList, "close".toList) ::
          [("Keep-Alive".toList, "timeout=5".toList)].filter
            (fun h => decide (lowerL h.1 ≠ lowerL "Keep-Alive".toList))) :=
  c3_connection_normalization.2 [("Host".toList, "x".toList)]
    [("Keep-Alive".toList, "timeout=5".toList)]
    "Connection".toList "Keep-Alive".toList
    (by decide) (by decide) (by decide) (by decide)

theorem mem_of_mem_takeWhileL {α : Type} (p : α → Bool) :
    ∀ (l : List α) (x : α), x ∈ l.takeWhile p → x ∈ l
  | [], x, hx => by simp at hx
  | a :: l, x, hx => by
    rw [List.takeWhile_cons] at hx
    by_cases hp : p a = true
    · rw [if_pos hp] at hx
      rcases List.mem_cons.mp hx with h1 | h2
      · exact h1 ▸ List.mem_cons_self a l
      · exact List.mem_cons_of_mem _ (mem_of_mem_takeWhileL p l x h2)
    · rw [if_neg hp] at hx
      exact absurd hx (List.not_mem_nil x)

theorem pdRun_spec : ∀ evs : List PDEvent,
    (pdRun evs).1 = (evs.takeWhile (fun e => !pdStops e)).map pdChunk ∧
    (pdRun evs).2 = (evs.dropWhile (fun e => !pdStops e)).tail
  | [] => by simp [pdRun]
  | (r, w) :: evs => by
    obtain ⟨ih1, ih2⟩ := pdRun_spec evs
    cases r with
    | fail => simp [pdRun, pdRead, pdStops]
    | ok d =>
      cases d with
      | nil => simp [pdRun, pdRead, pdStops]
      | cons x xs =>
        cases w with
        | false => simp [pdRun, pdRead, pdStops]
        | true => simp [pdRun, pdRead, pdStops, pdChunk, ih1, ih2]

/-- C8: one relay direction of `ProxyData`, under the `recv(BUFLEN)`
contract that no delivered chunk exceeds `BUFLEN` bytes: the chunks
handed to `sendall` are exactly the source's chunks before the first
stop event (end-of-stream, read error, or write error), unmodified and
in order — hence the concatenated payload is preserved for every
payload size, including empty and single-byte chunks; every written
chunk is at most 8192 bytes (`BUFLEN = 8192`); and the loop stops
exactly at the first stop event, leaving the remaining events
unconsumed. -/
theorem c8_relay_direction (evs : List PDEvent)
    (h : ∀ e ∈ evs, (pdChunk e).length ≤ BUFLEN) :
    (pdRun evs).1 = (evs.takeWhile (fun e => !pdStops e)).map pdChunk ∧
    (pdRun evs).2 = (evs.dropWhile (fun e => !pdStops e)).tail ∧
    ((pdRun evs).1).flatten =
      ((evs.takeWhile (fun e => !pdStops e)).map pdChunk).flatten ∧
    (∀ c ∈ (pdRun evs).1, c.length ≤ 8192) ∧ BUFLEN = 8192 := by
  obtain ⟨h1, h2⟩ := pdRun_spec evs
  refine ⟨h1, h2, by rw [h1], ?_, rfl⟩
  intro c hc
  rw [h1] at hc
  obtain ⟨e, he, rfl⟩ := List.mem_map.mp hc
  exact h e (mem_of_mem_takeWhileL _ _ _ he)

/-- C8 witness: a zero-length write, a one-byte chunk, a failing
write, then an unreached event. -/
theorem c8_witness :
    (pdRun [(.ok [1, 2], true), (.ok [7], true), (.ok [5], false), (.ok [9], true)]).1 =
      ([((.ok [1, 2] : RecvRes), true), (.ok [7], true), (.ok [5], false),
        (.ok [9], true)].takeWhile (fun e => !pdStops e)).map pdChunk ∧
    (pdRun [(.ok [1, 2], true), (.ok [7], true), (.ok [5], false), (.ok [9], true)]).2 =
      ([((.ok [1, 2] : RecvRes), true), (.ok [7], true), (.ok [5], false),
        (.ok [9], true)].dropWhile (fun e => !pdStops e)).tail ∧
    ((pdRun [(.ok [1, 2], true), (.ok [7], true), (.ok [5], false), (.ok [9], true)]).1).flatten =
      (([((.ok [1, 2] : RecvRes), true), (.ok [7], true), (.ok [5], false),
        (.ok [9], true)].takeWhile (fun e => !pdStops e)).map pdChunk).flatten ∧
    (∀ c ∈ (pdRun [(.ok [1, 2], true), (.ok [7], true), (.ok [5], false), (.ok [9], true)]).1,
      c.length ≤ 8192) ∧ BUFLEN = 8192 :=
  c8_relay_direction
    [(.ok [1, 2], true), (.ok [7], true), (.ok [5], false), (.ok [9], true)]
    (by decide)

theorem recvHead_boundary :
    ∀ (w r : List Char) (k : Nat), headEnds w k = true →
      recvHead (w ++ r) k = some (w.filter (fun c => c != '\r'), r)
  | [], _, k, h => by simp [headEnds] at h
  | b :: w, r, k, h => by
    rw [List.cons_append]
    by_cases hb : b = '\r'
    · subst hb
      simp only [headEnds, if_pos] at h
      rw [recvHead, if_pos rfl, recvHead_boundary w r k h]
      simp
    · by_cases hn : b = '\n'
      · subst hn
        simp only [headEnds, if_neg (by decide : ¬('\n' : Char) = '\r'), if_pos] at h
        by_cases hk : k + 1 ≥ 2
        · rw [if_pos hk] at h
          have hw : w = [] := by simpa using h
          subst hw
          rw [recvHead, if_neg (by decide), if_pos rfl, if_pos hk]
          simp
        · rw [if_neg hk] at h
          rw [recvHead, if_neg (by decide), if_pos rfl, if_neg hk,
            recvHead_boundary w r (k + 1) h]
          simp
      · simp only [headEnds, if_neg hb, if_neg hn] at h
        rw [recvHead, if_neg hb, if_neg hn, recvHead_boundary w r 0 h]
        simp [hb]

/-- C7: the parser's byte loop consumes exactly the header block: for
every stream that decomposes as a complete header block `w` (the
two-consecutive-`\n` scan, `\r` transparent, firing exactly at the
last byte of `w`) followed by arbitrary bytes `r`, the loop returns
the block's bytes (minus the discarded `\r`s) and leaves precisely `r`
unread — it consumes no byte past the boundary, leaving the stream
positioned at the first body/tunnel byte. -/
theorem c7_consumes_header_block_exactly (w r : List Char)
    (hw : headEnds w 0 = true) :
    recvHead (w ++ r) 0 = some (w.filter (fun c => c != '\r'), r) :=
  recvHead_boundary w r 0 hw

/-- C7 witness. -/
theorem c7_witness :
    headEnds "GET / HTTP/1.1\r\n\r\n".toList 0 = true ∧
    recvHead ("GET / HTTP/1.1\r\n\r\n".toList ++ "BODYBYTES".toList) 0 =
      some ("GET / HTTP/1.1\r\n\r\n".toList.filter (fun c => c != '\r'),
        "BODYBYTES".toList) :=
  ⟨by decide, c7_consumes_header_block_exactly "GET / HTTP/1.1\r\n\r\n".toList
    "BODYBYTES".toList (by decide)⟩

theorem recvHead_no_cr :
    ∀ (s : List Char) (k : Nat) (d r : List Char),
      recvHead s k = some (d, r) → d.all (fun c => c != '\r') = true
  | [], k, d, r, h => by simp [recvHead] at h
  | b :: s, k, d, r, h => by
    by_cases hb : b = '\r'
    · subst hb
      rw [recvHead, if_pos rfl] at h
      exact recvHead_no_cr s k d r h
    · by_cases hn : b = '\n'
      · subst hn
        rw [recvHead, if_neg (by decide)] at h
        rw [if_pos rfl] at h
        by_cases hk : k + 1 ≥ 2
        · rw [if_pos hk] at h
          obtain ⟨hd, _⟩ := Prod.mk.injEq .. ▸ (Option.some.injEq .. ▸ h :)
          subst hd
          decide
        · rw [if_neg hk] at h
          cases hrec : recvHead s (k + 1) with
          | none => rw [hrec] at h; simp at h
          | some p =>
            obtain ⟨d2, r2⟩ := p
            rw [hrec] at h
            simp only [Option.some.injEq, Prod.mk.injEq] at h
            obtain ⟨hd, _⟩ := h
            subst hd
            have := recvHead_no_cr s (k + 1) d2 r2 hrec
            simp [this]
      · rw [recvHead, if_neg hb, if_neg hn] at h
        cases hrec : recvHead s 0 with
        | none => rw [hrec] at h; simp at h
        | some p =>
          obtain ⟨d2, r2⟩ := p
          rw [hrec] at h
          simp only [Option.some.injEq, Prod.mk.injEq] at h
          obtain ⟨hd, _⟩ := h
          subst hd
          have := recvHead_no_cr s 0 d2 r2 hrec
          simp [this, hb]

theorem recvHead_cr_transparent :
    ∀ (a b : List Char) (k : Nat),
      (recvHead (a ++ '\r' :: b) k).map Prod.fst =
        (recvHead (a ++ b) k).map Prod.fst
  | [], b, k => by
    rw [List.nil_append, List.nil_append, recvHead, if_pos rfl]
  | a0 :: a, b, k => by
    rw [List.cons_append, List.cons_append]
    by_cases hb : a0 = '\r'
    · subst hb
      rw [recvHead, if_pos rfl]
      conv_rhs => rw [recvHead, if_pos rfl]
      exact recvHead_cr_transparent a b k
    · by_cases hn : a0 = '\n'
      · subst hn
        rw [recvHead, if_neg (by decide), if_pos rfl]
        conv_rhs => rw [recvHead, if_neg (by decide), if_pos rfl]
        by_cases hk : k + 1 ≥ 2
        · rw [if_pos hk]
          conv_rhs => rw [if_pos hk]
          rfl
        · rw [if_neg hk]
          conv_rhs => rw [if_neg hk]
          have ih := recvHead_cr_transparent a b (k + 1)
          cases h1 : recvHead (a ++ '\r' :: b) (k + 1) with
          | none =>
            cases h2 : recvHead (a ++ b) (k + 1) with
            | none => rfl
            | some q => rw [h1, h2] at ih; simp at ih
          | some p =>
            cases h2 : recvHead (a ++ b) (k + 1) with
            | none => rw [h1, h2] at ih; simp at ih
            | some q =>
              obtain ⟨d1, r1⟩ := p
              obtain ⟨d2, r2⟩ := q
              rw [h1, h2] at ih
              simp at ih
              simp [ih]
      · rw [recvHead, if_neg hb, if_neg hn]
        conv_rhs => rw [recvHead, if_neg hb, if_neg hn]
        have ih := recvHead_cr_transparent a b 0
        cases h1 : recvHead (a ++ '\r' :: b) 0 with
        | none =>
          cases h2 : recvHead (a ++ b) 0 with
          | none => rfl
          | some q => rw [h1, h2] at ih; simp at ih
        | some p =>
          cases h2 : recvHead (a ++ b) 0 with
          | none => rw [h1, h2] at ih; simp at ih
          | some q =>
            obtain ⟨d1, r1⟩ := p
            obtain ⟨d2, r2⟩ := q
            rw [h1, h2] at ih
            simp at ih
            simp [ih]

theorem pySplit_ne_nil (sep : Char) : ∀ l : List Char, pySplit sep l ≠ []
  | [] => by simp [pySplit]
  | c :: s => by
    by_cases hc : c = sep
    · simp [pySplit, hc]
    · rw [pySplit, if_neg hc]
      cases hps : pySplit sep s with
      | nil => simp
      | cons p ps => simp

theorem pySplit_all (p : Char → Bool) (sep : Char) :
    ∀ (l : List Char), l.all p = true → ∀ x ∈ pySplit sep l, x.all p = true
  | [], _, x, hx => by
    simp [pySplit] at hx
    subst hx
    rfl
  | c :: s, h, x, hx => by
    simp only [List.all_cons, Bool.and_eq_true] at h
    by_cases hc : c = sep
    · rw [pySplit, if_pos hc] at hx
      rcases List.mem_cons.mp hx with h1 | h2
      · subst h1; rfl
      · exact pySplit_all p sep s h.2 x h2
    · rw [pySplit, if_neg hc] at hx
      cases hps : pySplit sep s with
      | nil => exact absurd hps (pySplit_ne_nil sep s)
      | cons q qs =>
        rw [hps] at hx
        rcases List.mem_cons.mp hx with h1 | h2
        · subst h1
          have hq : q.all p = true :=
            pySplit_all p sep s h.2 q (hps ▸ List.mem_cons_self q qs)
          simp [h.1, hq]
        · exact pySplit_all p sep s h.2 x (hps ▸ List.mem_cons_of_mem q h2)

theorem splitOnceCS_all (p : Char → Bool) :
    ∀ (l a b : List Char), l.all p = true → splitOnceCS l = some (a, b) →
      a.all p = true ∧ b.all p = true
  | [], a, b, _, he => by simp [splitOnceCS] at he
  | c :: rest, a, b, h, he => by
    simp only [List.all_cons, Bool.and_eq_true] at h
    by_cases hcs : c = ':' ∧ rest.head? = some ' '
    · rw [splitOnceCS, if_pos hcs] at he
      simp only [Option.some.injEq, Prod.mk.injEq] at he
      obtain ⟨ha, hb⟩ := he
      subst ha
      subst hb
      refine ⟨rfl, ?_⟩
      cases rest with
      | nil => rfl
      | cons x xs =>
        simp only [List.all_cons, Bool.and_eq_true] at h
        exact h.2.2
    · rw [splitOnceCS, if_neg hcs] at he
      cases hrec : splitOnceCS rest with
      | none => rw [hrec] at he; simp at he
      | some q =>
        obtain ⟨a2, b2⟩ := q
        rw [hrec] at he
        simp only [Option.some.injEq, Prod.mk.injEq] at he
        obtain ⟨ha, hb⟩ := he
        subst ha
        subst hb
        have := splitOnceCS_all p rest a2 b2 h.2 hrec
        simp [h.1, this.1, this.2]

theorem parseHeaderLines_all (p : Char → Bool) :
    ∀ (ls : List (List Char)) (hs : List (List Char × List Char)),
      (∀ l ∈ ls, l.all p = true) → parseHeaderLines ls = some hs →
      ∀ h ∈ hs, h.1.all p = true ∧ h.2.all p = true
  | [], hs, _, he, h, hm => by
    simp only [parseHeaderLines, Option.some.injEq] at he
    subst he
    simp at hm
  | l :: ls, hs, hl, he, h, hm => by
    by_cases hnil : l = []
    · rw [parseHeaderLines, if_pos hnil] at he
      simp only [Option.some.injEq] at he
      subst he
      simp at hm
    · rw [parseHeaderLines, if_neg hnil] at he
      cases hcs : splitOnceCS l with
      | none => rw [hcs] at he; simp at he
      | some q =>
        obtain ⟨n, v⟩ := q
        rw [hcs] at he
        cases hrec : parseHeaderLines ls with
        | none => rw [hrec] at he; simp at he
        | some hs2 =>
          rw [hrec] at he
          simp only [Option.some.injEq] at he
          subst he
          have hnv := splitOnceCS_all p l n v (hl l (List.mem_cons_self l ls)) hcs
          rcases List.mem_cons.mp hm with h1 | h2
          · subst h1
            exact hnv
          · exact parseHeaderLines_all p ls hs2
              (fun x hx => hl x (List.mem_cons_of_mem l hx)) hrec h h2

/-- C10: the parser deletes every `\r` byte wherever it occurs, and
`\r` never resets the consecutive-`\n` count.  Concretely:
(1) the byte block accumulated by the loop never contains `\r`;
(2) inserting a `\r` anywhere in the stream leaves the accumulated
block (and whether the scan terminates) unchanged — so a `\n\r\n`
sequence ends the header block exactly as `\n\n` does, and a `\r` in
the middle of a line is silently dropped;
(3) consequently no parsed method, target, protocol version, header
name, or header value ever contains `\r`. -/
theorem c10_cr_discarded_everywhere :
    (∀ (s : List Char) (k : Nat) (d r : List Char),
      recvHead s k = some (d, r) → d.all (fun c => c != '\r') = true) ∧
    (∀ (a b : List Char) (k : Nat),
      (recvHead (a ++ '\r' :: b) k).map Prod.fst =
        (recvHead (a ++ b) k).map Prod.fst) ∧
    (∀ (s : List Char) (req : Request) (rest : List Char),
      parseRequest s = some (req, rest) →
      req.method.all (fun c => c != '\r') = true ∧
      req.path.all (fun c => c != '\r') = true ∧
      req.protocol.all (fun c => c != '\r') = true ∧
      ∀ h ∈ req.headers,
        h.1.all (fun c => c != '\r') = true ∧
        h.2.all (fun c => c != '\r') = true) := by
  refine ⟨recvHead_no_cr, recvHead_cr_transparent, ?_⟩
  intro s req rest h
  unfold parseRequest at h
  split at h
  · simp at h
  · rename_i data rest2 hrecv
    have hdata : data.all (fun c => c != '\r') = true :=
      recvHead_no_cr s 0 data rest2 hrecv
    split at h
    · split at h
      · simp at h
      · rename_i first lines hl
        have hlines : ∀ x ∈ pySplit '\n' data, x.all (fun c => c != '\r') = true :=
          pySplit_all _ '\n' data hdata
        have hfirst : first.all (fun c => c != '\r') = true :=
          hlines first (hl ▸ List.mem_cons_self first lines)
        have hparts : ∀ x ∈ pySplit ' ' first, x.all (fun c => c != '\r') = true :=
          fun x hx => pySplit_all _ ' ' first hfirst x hx
        split at h
        · rename_i m0 t0 p0 hf
          split at h
          · simp at h
          · rename_i hs hph
            simp only [Option.some.injEq, Prod.mk.injEq] at h
            obtain ⟨hreq, _⟩ := h
            subst hreq
            refine ⟨hparts m0 (by rw [hf]; simp), hparts t0 (by rw [hf]; simp),
              hparts p0 (by rw [hf]; simp), ?_⟩
            exact parseHeaderLines_all _ lines hs
              (fun x hx => hlines x (hl ▸ List.mem_cons_of_mem first hx)) hph
        · simp at h
    · simp at h

/-- C10 witness: a `\r` in the middle of the method and a `\n\r\n`
terminator; the parse succeeds, the `\r` is deleted from the parsed
method, and the stream after the head is untouched. -/
theorem c10_witness :
    parseRequest "GE\rT /x HTTP/1.1\n\r\nZZ".toList =
      some (⟨"GET".toList, "/x".toList, "HTTP/1.1".toList, []⟩, "ZZ".toList) ∧
    ("GET".toList.all (fun c => c != '\r') = true ∧
     "/x".toList.all (fun c => c != '\r') = true ∧
     "HTTP/1.1".toList.all (fun c => c != '\r') = true ∧
     ∀ h ∈ (⟨"GET".toList, "/x".toList, "HTTP/1.1".toList, []⟩ : Request).headers,
       h.1.all (fun c => c != '\r') = true ∧
       h.2.all (fun c => c != '\r') = true) :=
  ⟨by decide,
   c10_cr_discarded_everywhere.2.2 "GE\rT /x HTTP/1.1\n\r\nZZ".toList
     ⟨"GET".toList, "/x".toList, "HTTP/1.1".toList, []⟩ "ZZ".toList (by decide)⟩

theorem plainFieldB_spec (l : List Char) (h : plainFieldB l = true) :
    ∀ c ∈ l, c ≠ ' ' ∧ c ≠ '\n' ∧ c ≠ '\r' ∧ c.toNat < 128 := by
  simp only [plainFieldB, List.all_eq_true, Bool.and_eq_true, bne_iff_ne,
    decide_eq_true_eq] at h
  intro c hc
  obtain ⟨⟨⟨h1, h2⟩, h3⟩, h4⟩ := h c hc
  exact ⟨h1, h2, h3, h4⟩

theorem plainTextB_spec (l : List Char) (h : plainTextB l = true) :
    ∀ c ∈ l, c ≠ '\n' ∧ c ≠ '\r' ∧ c.toNat < 128 := by
  simp only [plainTextB, List.all_eq_true, Bool.and_eq_true, bne_iff_ne,
    decide_eq_true_eq] at h
  intro c hc
  obtain ⟨⟨h1, h2⟩, h3⟩ := h c hc
  exact ⟨h1, h2, h3⟩

theorem renderHV_ne_nil (h : List Char × List Char) : renderHV h ≠ [] := by
  obtain ⟨n, v⟩ := h
  cases n <;> simp [renderHV]

theorem reqLine_ne_nil (m t v : List Char) : reqLine m t v ≠ [] := by
  cases m <;> simp [reqLine]

theorem mem_reqLine (m t v : List Char) (c : Char) (hc : c ∈ reqLine m t v) :
    c = ' ' ∨ c ∈ m ∨ c ∈ t ∨ c ∈ v := by
  simp only [reqLine, List.mem_append, List.mem_cons] at hc
  tauto

theorem mem_renderHV (n v : List Char) (c : Char) (hc : c ∈ renderHV (n, v)) :
    c = ':' ∨ c = ' ' ∨ c ∈ n ∨ c ∈ v := by
  simp only [renderHV, List.mem_append, List.mem_cons] at hc
  tauto

theorem headEnds_line :
    ∀ (l : List Char) (k : Nat) (rest : List Char), l ≠ [] →
      (∀ c ∈ l, c ≠ '\n' ∧ c ≠ '\r') →
      headEnds (l ++ '\r' :: '\n' :: rest) k = headEnds rest 1
  | [], _, _, hne, _ => absurd rfl hne
  | [c], k, rest, _, hc => by
    have h1 := hc c (by simp)
    simp [headEnds, h1.1, h1.2]
  | c :: c2 :: l, k, rest, _, hc => by
    have h1 := hc c (by simp)
    have ih := headEnds_line (c2 :: l) 0 rest (by simp)
      (fun x hx => hc x (List.mem_cons_of_mem c hx))
    simp only [List.cons_append]
    simp only [headEnds, h1.1, h1.2, if_false]
    rw [← ih]
    simp only [headEnds, List.cons_append, List.append_eq]

theorem headEnds_block :
    ∀ (ls : List (List Char)) (k : Nat), ls ≠ [] →
      (∀ l ∈ ls, l ≠ [] ∧ ∀ c ∈ l, c ≠ '\n' ∧ c ≠ '\r') →
      headEnds ((ls.map (fun l => l ++ crlf)).flatten ++ crlf) k = true
  | [], _, hne, _ => absurd rfl hne
  | [l], k, _, hl => by
    obtain ⟨hne, hc⟩ := hl l (by simp)
    simp only [List.map_cons, List.map_nil, List.flatten_cons, List.flatten_nil,
      List.append_nil, crlf, List.append_assoc, List.cons_append, List.nil_append]
    rw [show (l ++ '\r' :: '\n' :: '\r' :: '\n' :: ([] : List Char)) =
        l ++ '\r' :: '\n' :: (['\r', '\n'] : List Char) from rfl]
    rw [headEnds_line l k ['\r', '\n'] hne hc]
    decide
  | l :: l2 :: ls, k, _, hl => by
    obtain ⟨hne, hc⟩ := hl l (by simp)
    have ih := headEnds_block (l2 :: ls) 1 (by simp)
      (fun x hx => hl x (List.mem_cons_of_mem l hx))
    simp only [List.map_cons, List.flatten_cons, List.append_assoc, crlf,
      List.cons_append, List.nil_append]
    rw [headEnds_line l k _ hne hc]
    have ih2 := ih
    simp only [List.map_cons, List.flatten_cons, List.append_assoc, crlf,
      List.cons_append, List.nil_append] at ih2
    exact ih2

theorem filter_strip_cr :
    ∀ (ls : List (List Char)), (∀ l ∈ ls, ∀ c ∈ l, c ≠ '\r') →
      ((ls.map (fun l => l ++ crlf)).flatten ++ crlf).filter (fun c => c != '\r') =
        (ls.map (fun l => l ++ ['\n'])).flatten ++ ['\n']
  | [], _ => by simp [crlf]
  | l :: ls, hl => by
    have hme : ∀ c ∈ l, c ≠ '\r' := hl l (by simp)
    have ih := filter_strip_cr ls (fun x hx => hl x (List.mem_cons_of_mem l hx))
    simp only [List.map_cons, List.flatten_cons, List.append_assoc, List.filter_append]
    rw [List.filter_eq_self.mpr (fun a ha => by simp [hme a ha])]
    rw [← List.filter_append, ih]
    simp [crlf]

theorem pySplit_lines :
    ∀ (ls : List (List Char)), (∀ l ∈ ls, '\n' ∉ l) →
      pySplit '\n' ((ls.map (fun l => l ++ ['\n'])).flatten ++ ['\n']) = ls ++ [[], []]
  | [], _ => by simp [pySplit]
  | l :: ls, hl => by
    have ih := pySplit_lines ls (fun x hx => hl x (List.mem_cons_of_mem l hx))
    simp only [List.map_cons, List.flatten_cons, List.append_assoc]
    rw [show ((['\n'] : List Char) ++
        (((ls.map (fun l => l ++ ['\n'])).flatten ++ ['\n']))) =
        '\n' :: ((ls.map (fun l => l ++ ['\n'])).flatten ++ ['\n']) from rfl,
      pySplit_append '\n' l _ (hl l (by simp)), ih]
    simp

theorem pySplit_reqLine (m t v : List Char)
    (hm : ' ' ∉ m) (ht : ' ' ∉ t) (hv : ' ' ∉ v) :
    pySplit ' ' (reqLine m t v) = [m, t, v] := by
  unfold reqLine
  rw [pySplit_append ' ' m _ hm, pySplit_append ' ' t _ ht, pySplit_no_sep ' ' v hv]

theorem splitOnceCS_render :
    ∀ (n v : List Char), hasCS n = false →
      splitOnceCS (n ++ ':' :: ' ' :: v) = some (n, v)
  | [], v, _ => by simp [splitOnceCS]
  | c :: n, v, h => by
    rw [hasCS, Bool.or_eq_false_iff] at h
    obtain ⟨h1, h2⟩ := h
    rw [List.cons_append, splitOnceCS]
    rw [if_neg ?hcond]
    case hcond =>
      rintro ⟨hc1, hc2⟩
      cases n with
      | nil => simp at hc2
      | cons x xs =>
        simp only [List.cons_append, List.head?_cons, Option.some.injEq] at hc2
        rw [hc1, hc2] at h1
        simp at h1
    rw [splitOnceCS_render n v h2]

theorem parseHeaderLines_render :
    ∀ (hs : List (List Char × List Char)), (∀ h ∈ hs, hasCS h.1 = false) →
      parseHeaderLines (hs.map renderHV ++ [[], []]) = some hs
  | [], _ => by simp [parseHeaderLines]
  | (n, v) :: hs, hh => by
    have h1 : hasCS n = false := hh (n, v) (by simp)
    have ih := parseHeaderLines_render hs (fun x hx => hh x (List.mem_cons_of_mem _ hx))
    simp only [List.map_cons, List.cons_append, parseHeaderLines,
      if_neg (renderHV_ne_nil (n, v)), renderHV]
    simp [splitOnceCS_render n v h1, ih]

theorem flatten_lf_all (p : Char → Bool) (hp : p '\n' = true) :
    ∀ (ls : List (List Char)), (∀ l ∈ ls, l.all p = true) →
      ((ls.map (fun l => l ++ ['\n'])).flatten ++ ['\n']).all p = true
  | [], _ => by simp [hp]
  | l :: ls, h => by
    have ih := flatten_lf_all p hp ls (fun x hx => h x (List.mem_cons_of_mem l hx))
    have hl := h l (by simp)
    simp only [List.all_append] at ih
    rw [Bool.and_eq_true] at ih
    simp only [List.map_cons, List.flatten_cons, List.append_assoc, List.all_append]
    simp [hl, hp, ih.1, ih.2]

/-- C6: for every well-formed request head — a request line
`METHOD target HTTP/x.y\r\n` (fields free of spaces, line terminators
and non-ASCII), zero or more `Name: Value\r\n` header lines (names and
values free of line terminators and non-ASCII, names not containing
`": "`), and the terminating blank line — followed by arbitrary
further bytes, the parser succeeds and recovers exactly the method,
target, protocol version, and all header name/value pairs in their
original order (so duplicate keys keep all their values), and the
case-insensitive lookup view of the parsed headers agrees with that of
the original header list. -/
theorem c6_parser_roundtrip (m t v : List Char)
    (hs : List (List Char × List Char)) (rest : List Char)
    (hm : plainFieldB m = true) (ht : plainFieldB t = true)
    (hv : plainFieldB v = true) (hh : ∀ h ∈ hs, headerOkB h = true) :
    parseRequest (renderHead m t v hs ++ rest) = some (⟨m, t, v, hs⟩, rest) ∧
    ∀ nm, getAllHeaders (Request.mk m t v hs).headers nm = getAllHeaders hs nm := by
  have hmS := plainFieldB_spec m hm
  have htS := plainFieldB_spec t ht
  have hvS := plainFieldB_spec v hv
  have hhS : ∀ h ∈ hs, (∀ c ∈ h.1, c ≠ '\n' ∧ c ≠ '\r' ∧ c.toNat < 128) ∧
      (∀ c ∈ h.2, c ≠ '\n' ∧ c ≠ '\r' ∧ c.toNat < 128) ∧ hasCS h.1 = false := by
    intro h hmem
    have hx := hh h hmem
    simp only [headerOkB, Bool.and_eq_true, Bool.not_eq_true'] at hx
    exact ⟨plainTextB_spec _ hx.1.1, plainTextB_spec _ hx.1.2, hx.2⟩
  have hLfacts : ∀ l ∈ reqLine m t v :: hs.map renderHV,
      l ≠ [] ∧ ∀ c ∈ l, c ≠ '\n' ∧ c ≠ '\r' ∧ c.toNat < 128 := by
    intro l hl
    rcases List.mem_cons.mp hl with h1 | h2
    · subst h1
      refine ⟨reqLine_ne_nil m t v, ?_⟩
      intro c hc
      rcases mem_reqLine m t v c hc with h | h | h | h
      · subst h; exact ⟨by decide, by decide, by decide⟩
      · exact (hmS c h).2
      · exact (htS c h).2
      · exact (hvS c h).2
    · obtain ⟨hp, hpm, hpe⟩ := List.mem_map.mp h2
      obtain ⟨n, v2⟩ := hp
      subst hpe
      refine ⟨renderHV_ne_nil _, ?_⟩
      intro c hc
      rcases mem_renderHV n v2 c hc with h | h | h | h
      · subst h; exact ⟨by decide, by decide, by decide⟩
      · subst h; exact ⟨by decide, by decide, by decide⟩
      · exact (hhS _ hpm).1 c h
      · exact (hhS _ hpm).2.1 c h
  have hLf2 : ∀ l ∈ reqLine m t v :: hs.map renderHV,
      l ≠ [] ∧ ∀ c ∈ l, c ≠ '\n' ∧ c ≠ '\r' :=
    fun l hl => ⟨(hLfacts l hl).1,
      fun c hc => ⟨((hLfacts l hl).2 c hc).1, ((hLfacts l hl).2 c hc).2.1⟩⟩
  have hEnds : headEnds (renderHead m t v hs) 0 = true := by
    unfold renderHead
    exact headEnds_block _ 0 (by simp) hLf2
  have hrecv := recvHead_boundary (renderHead m t v hs) rest 0 hEnds
  have hfilter : (renderHead m t v hs).filter (fun c => c != '\r') =
      (((reqLine m t v :: hs.map renderHV).map (fun l => l ++ ['\n'])).flatten
        ++ ['\n']) := by
    unfold renderHead
    exact filter_strip_cr _ (fun l hl c hc => ((hLf2 l hl).2 c hc).2)
  have hascii : ((((reqLine m t v :: hs.map renderHV).map
      (fun l => l ++ ['\n'])).flatten ++ ['\n']).all
        (fun c => decide (c.toNat < 128))) = true := by
    refine flatten_lf_all _ (by decide) _ ?_
    intro l hl
    simp only [List.all_eq_true, decide_eq_true_eq]
    exact fun c hc => ((hLfacts l hl).2 c hc).2.2
  have hnl : pySplit '\n' (((reqLine m t v :: hs.map renderHV).map
      (fun l => l ++ ['\n'])).flatten ++ ['\n']) =
      (reqLine m t v :: hs.map renderHV) ++ [[], []] :=
    pySplit_lines _ (fun l hl hmem => (((hLfacts l hl).2 '\n' hmem)).1 rfl)
  have hsp : pySplit ' ' (reqLine m t v) = [m, t, v] :=
    pySplit_reqLine m t v (fun hmm => (hmS ' ' hmm).1 rfl)
      (fun hmm => (htS ' ' hmm).1 rfl) (fun hmm => (hvS ' ' hmm).1 rfl)
  have hph : parseHeaderLines (hs.map renderHV ++ [[], []]) = some hs :=
    parseHeaderLines_render hs (fun h hmem => (hhS h hmem).2.2)
  refine ⟨?_, fun nm => rfl⟩
  simp only [parseRequest, hrecv, hfilter]
  rw [if_pos hascii]
  simp only [hnl, List.cons_append, hsp, hph]

/-- C6 witness: a head with a duplicate case-varying header key and a
value containing `": "`. -/
theorem c6_witness :
    (plainFieldB "GET".toList = true ∧ plainFieldB "/idx".toList = true ∧
     plainFieldB "HTTP/1.1".toList = true ∧
     ∀ h ∈ [("Set-Cookie".toList, "a=1".toList),
            ("set-cookie".toList, "b: 2".toList)], headerOkB h = true) ∧
    parseRequest (renderHead "GET".toList "/idx".toList "HTTP/1.1".toList
        [("Set-Cookie".toList, "a=1".toList),
         ("set-cookie".toList, "b: 2".toList)] ++ "BD".toList) =
      some (⟨"GET".toList, "/idx".toList, "HTTP/1.1".toList,
        [("Set-Cookie".toList, "a=1".toList),
         ("set-cookie".toList, "b: 2".toList)]⟩, "BD".toList) ∧
    ∀ nm, getAllHeaders (Request.mk "GET".toList "/idx".toList "HTTP/1.1".toList
        [("Set-Cookie".toList, "a=1".toList),
         ("set-cookie".toList, "b: 2".toList)]).headers nm =
      getAllHeaders [("Set-Cookie".toList, "a=1".toList),
        ("set-cookie".toList, "b: 2".toList)] nm :=
  ⟨⟨by decide, by decide, by decide, by decide⟩,
   c6_parser_roundtrip "GET".toList "/idx".toList "HTTP/1.1".toList
     [("Set-Cookie".toList, "a=1".toList), ("set-cookie".toList, "b: 2".toList)]
     "BD".toList (by decide) (by decide) (by decide) (by decide)⟩
